/-
Spec2Proof.lean

Verification development for the SU(3) lattice gauge theory code in
src/lgt/lattice/su3/tensorflow/lattice.py (class LatticeSU3).

The tensor entries (complex floating point numbers in the original) are
modelled exactly by complex numbers with rational components (CQ below),
so that every definition is executable.  A link configuration
x of shape [nb, 4, nt, nx, ny, nz, 3, 3] is modelled as a function
from batch index, direction and lattice site to a 3 by 3 complex matrix.
The group helper module lgt.group is not part of the sources; its
operations (mul with adjoint flags, trace, projectTAH) are modelled from
the specification, as noted on each definition.
-/
import Mathlib

set_option maxHeartbeats 1000000

/-- Complex numbers with rational real and imaginary parts: an exact model
of the complex scalar entries of the tensors used by the lattice code. -/
structure CQ where
  re : ℚ
  im : ℚ
deriving DecidableEq

instance : Zero CQ := ⟨⟨0, 0⟩⟩

instance : One CQ := ⟨⟨1, 0⟩⟩

instance : Add CQ := ⟨fun a b => ⟨a.re + b.re, a.im + b.im⟩⟩

instance : Sub CQ := ⟨fun a b => ⟨a.re - b.re, a.im - b.im⟩⟩

instance : Neg CQ := ⟨fun a => ⟨-a.re, -a.im⟩⟩

instance : Mul CQ := ⟨fun a b => ⟨a.re * b.re - a.im * b.im, a.re * b.im + a.im * b.re⟩⟩

/-- Complex conjugation on CQ. -/
def CQ.conj (a : CQ) : CQ := ⟨a.re, -a.im⟩

/-- Scalar multiplication of a CQ by a rational. -/
def CQ.scale (q : ℚ) (a : CQ) : CQ := ⟨q * a.re, q * a.im⟩

theorem CQ.add_re (a b : CQ) : (a + b).re = a.re + b.re := rfl

theorem CQ.add_im (a b : CQ) : (a + b).im = a.im + b.im := rfl

theorem CQ.zero_def : (0 : CQ) = ⟨0, 0⟩ := rfl

theorem CQ.one_def : (1 : CQ) = ⟨1, 0⟩ := rfl

theorem CQ.add_def (a b : CQ) : a + b = ⟨a.re + b.re, a.im + b.im⟩ := rfl

theorem CQ.sub_def (a b : CQ) : a - b = ⟨a.re - b.re, a.im - b.im⟩ := rfl

theorem CQ.mul_def (a b : CQ) :
    a * b = ⟨a.re * b.re - a.im * b.im, a.re * b.im + a.im * b.re⟩ := rfl

theorem CQ.conj_def (a : CQ) : a.conj = ⟨a.re, -a.im⟩ := rfl

/-- A 3 by 3 complex matrix: the value of one SU(3) link variable. -/
abbrev Mat3 : Type := Fin 3 → Fin 3 → CQ

/-- Matrix product of two 3 by 3 matrices (the last two tensor axes of a
batched matmul). -/
def matMul (a b : Mat3) : Mat3 :=
  fun i k => a i 0 * b 0 k + a i 1 * b 1 k + a i 2 * b 2 k

/-- Conjugate transpose (adjoint) of a 3 by 3 matrix. -/
def adjM (a : Mat3) : Mat3 := fun i j => (a j i).conj

/-- Matrix trace of a 3 by 3 matrix. -/
def trace3 (a : Mat3) : CQ := a 0 0 + a 1 1 + a 2 2

/-- The 3 by 3 identity matrix. -/
def idMat : Mat3 := fun i j => if i = j then 1 else 0

/-- Modelled from the spec: the group operation `self.g.mul` of the missing
module lgt.group is the batched matrix product with optional adjoint flags
(adjoint_a conjugate-transposes the left factor, adjoint_b the right one),
exactly as in the tensor framework matmul it wraps. -/
def gmul (adjoint_a adjoint_b : Bool) (a b : Mat3) : Mat3 :=
  matMul (if adjoint_a then adjM a else a) (if adjoint_b then adjM b else b)

/-- Modelled from the spec: the group operation `self.g.trace` of the missing
module lgt.group is the matrix trace over the last two tensor axes. -/
def gtrace (a : Mat3) : CQ := trace3 a

/-- Modelled from the spec: `self.g.projectTAH` of the missing module
lgt.group projects a matrix onto the traceless anti-Hermitian algebra:
it takes the anti-Hermitian part and removes the trace. -/
def projectTAH (m : Mat3) : Mat3 :=
  let ah : Mat3 := fun i j => CQ.scale (1 / 2) (m i j - (adjM m) i j)
  fun i j => ah i j - (if i = j then CQ.scale (1 / 3) (trace3 ah) else 0)

/-- Cumulative products of a list, in order (model of np.cumprod). -/
def cumprod (l : List ℕ) : List ℕ :=
  (l.foldl (fun (p : ℕ × List ℕ) n => (p.1 * n, p.2 ++ [p.1 * n])) (1, [])).2

/-- The lattice object: the fields set by LatticeSU3.__init__.
The batch size nb is recorded as a field (in the source it only appears
inside the stored tensor shape); link_shape is self.g.shape = (3, 3). -/
structure LatticeSU3 where
  nb : ℕ
  dim : ℕ
  c1 : ℚ
  link_shape : ℕ × ℕ
  nt : ℕ
  nx : ℕ
  ny : ℕ
  nz : ℕ
  _shape : List ℕ
  volume : ℕ
  site_idxs : List ℕ
  nplaqs : ℕ
  _lattice_shape : ℕ × ℕ × ℕ × ℕ
  nsites : ℕ
  nlinks : ℕ
  link_idxs : List ℕ

/-- The constructor LatticeSU3.__init__ for a shape that is a 4-tuple
(nt, nx, ny, nz); field by field as in the source. -/
def mkLattice (nb : ℕ) (shape : ℕ × ℕ × ℕ × ℕ) (c1 : ℚ) : LatticeSU3 :=
  let nt := shape.1
  let nx := shape.2.1
  let ny := shape.2.2.1
  let nz := shape.2.2.2
  let gshape : ℕ × ℕ := (3, 3)
  let site_idxs : List ℕ := [nt] ++ List.replicate (4 - 1) nx
  { nb := nb
    dim := 4
    c1 := c1
    link_shape := gshape
    nt := nt
    nx := nx
    ny := ny
    nz := nz
    _shape := [nb, 4, nt, nx, ny, nz, gshape.1, gshape.2]
    volume := nt * nx * ny * nz
    site_idxs := site_idxs
    nplaqs := nt * nx
    _lattice_shape := shape
    nsites := (cumprod [nt, nx, ny, nz]).getLastD 0
    nlinks := (cumprod [nt, nx, ny, nz]).getLastD 0 * 4
    link_idxs := site_idxs ++ [4] }

/-- The constructor applied to a shape list of unknown length: the
assertion `len(shape) == 4` fails (an exception, before the remaining
fields are computed) unless the shape has exactly 4 entries. -/
def mkLatticeChecked (nb : ℕ) (shape : List ℕ) (c1 : ℚ) :
    Except String LatticeSU3 :=
  if shape.length = 4 then
    .ok (mkLattice nb (shape.getD 0 0, shape.getD 1 0, shape.getD 2 0, shape.getD 3 0) c1)
  else
    .error "AssertionError: len(shape) == 4"

/-- A lattice site: one index per spacetime dimension (t, x, y, z). -/
abbrev Site (L : LatticeSU3) : Type :=
  Fin L.nt × Fin L.nx × Fin L.ny × Fin L.nz

/-- A link configuration of shape [nb, 4, nt, nx, ny, nz, 3, 3]:
batch index, direction, site, then a 3 by 3 matrix. -/
abbrev Cfg (L : LatticeSU3) : Type :=
  Fin L.nb → Fin 4 → Site L → Mat3

/-- A direction slice x[:, u] of a configuration: shape
[nb, nt, nx, ny, nz, 3, 3]. -/
abbrev SField (L : LatticeSU3) : Type :=
  Fin L.nb → Site L → Mat3

/-- Index arithmetic of tf.roll with shift s along an axis of extent n:
output index i reads input index (i - s) mod n. -/
def rollCoord (n : ℕ) (s : ℤ) (i : Fin n) : Fin n :=
  ⟨(((i.val : ℤ) - s) % (n : ℤ)).toNat, by
    have hn : (0 : ℤ) < (n : ℤ) := by exact_mod_cast i.pos
    have h1 : 0 ≤ ((i.val : ℤ) - s) % (n : ℤ) := Int.emod_nonneg _ (ne_of_gt hn)
    have h2 : ((i.val : ℤ) - s) % (n : ℤ) < (n : ℤ) := Int.emod_lt_of_pos _ hn
    omega⟩

/-- The site read by tf.roll with shift s along spacetime axis u
(axis u + 1 of the sliced tensor). -/
def rollSite (L : LatticeSU3) (s : ℤ) (u : Fin 4) (n : Site L) : Site L :=
  if u.val = 0 then (rollCoord L.nt s n.1, n.2.1, n.2.2.1, n.2.2.2)
  else if u.val = 1 then (n.1, rollCoord L.nx s n.2.1, n.2.2.1, n.2.2.2)
  else if u.val = 2 then (n.1, n.2.1, rollCoord L.ny s n.2.2.1, n.2.2.2)
  else (n.1, n.2.1, n.2.2.1, rollCoord L.nz s n.2.2.2)

/-- tf.roll of a direction slice by shift s along spacetime axis u. -/
def rollAxis (L : LatticeSU3) (s : ℤ) (u : Fin 4) (f : SField L) : SField L :=
  fun b n => f b (rollSite L s u n)

/-- The successor index with periodic wrap-around: i + 1 mod n. -/
def finSucc {n : ℕ} (i : Fin n) : Fin n :=
  ⟨(i.val + 1) % n, Nat.mod_lt _ i.pos⟩

/-- The neighbouring site one step in direction u, with periodic
wrap-around at the boundary (the site n + u-hat). -/
def shiftSite (L : LatticeSU3) (u : Fin 4) (n : Site L) : Site L :=
  if u.val = 0 then (finSucc n.1, n.2.1, n.2.2.1, n.2.2.2)
  else if u.val = 1 then (n.1, finSucc n.2.1, n.2.2.1, n.2.2.2)
  else if u.val = 2 then (n.1, n.2.1, finSucc n.2.2.1, n.2.2.2)
  else (n.1, n.2.1, n.2.2.1, finSucc n.2.2.2)

/-- The direction slice x[:, u]. -/
def sliceDir (L : LatticeSU3) (x : Cfg L) (u : Fin 4) : SField L :=
  fun b n => x b u n

/-- Batched g.mul on direction slices: pointwise matrix product with
optional adjoint flags. -/
def gmulF (L : LatticeSU3) (adjoint_a adjoint_b : Bool) (f g : SField L) :
    SField L :=
  fun b n => gmul adjoint_a adjoint_b (f b n) (g b n)

/-- Batched g.trace on a direction slice. -/
def traceF (L : LatticeSU3) (f : SField L) : Fin L.nb → Site L → CQ :=
  fun b n => gtrace (f b n)

/-- LatticeSU3._plaquette: the plaquette trace field for directions u, v. -/
def _plaquette (L : LatticeSU3) (x : Cfg L) (u v : Fin 4) :
    Fin L.nb → Site L → CQ :=
  let xuv := gmulF L false false (sliceDir L x u) (rollAxis L (-1) u (sliceDir L x v))
  let xvu := gmulF L false false (sliceDir L x v) (rollAxis L (-1) v (sliceDir L x u))
  traceF L (gmulF L false true xuv xvu)

/-- The loop indices (u, v) visited by the nested loops
`for u in range(1, 4): for v in range(0, u):` of _wilson_loops. -/
def loopPairs : List (ℕ × ℕ) :=
  (List.range' 1 3).flatMap (fun u => (List.range u).map (fun v => (u, v)))

/-- A spacetime direction from a loop counter. -/
def dir4 (u : ℕ) : Fin 4 := ⟨u % 4, Nat.mod_lt _ (by omega)⟩

/-- The two rectangle trace fields appended for one loop pair (u, v) when
needs_rect is set, following lines 106 to 119 of the source. -/
def rectPair (L : LatticeSU3) (x : Cfg L) (u v : Fin 4) :
    List (Fin L.nb → Site L → CQ) :=
  let yuv := gmulF L false false (sliceDir L x u) (rollAxis L (-1) u (sliceDir L x v))
  let yvu := gmulF L false false (sliceDir L x v) (rollAxis L (-1) v (sliceDir L x u))
  let yu := rollAxis L (-1) v (sliceDir L x u)
  let yv := rollAxis L (-1) u (sliceDir L x v)
  let uu := gmulF L true false (sliceDir L x v) yuv
  let ur := gmulF L true false (sliceDir L x u) yvu
  let ul := gmulF L false true yuv yu
  let ud := gmulF L false true yvu yv
  let ul2 := rollAxis L (-1) u ul
  let ud2 := rollAxis L (-1) v ud
  [traceF L (gmulF L false true ur ul2), traceF L (gmulF L false true uu ud2)]

/-- LatticeSU3._wilson_loops: the list of 6 plaquette trace fields and,
when needs_rect is set, the list of 12 rectangle trace fields, accumulated
in loop order.  The reshape of x to self._shape is the identity here since
configurations are already indexed in that shape. -/
def _wilson_loops (L : LatticeSU3) (x : Cfg L) (needs_rect : Bool) :
    List (Fin L.nb → Site L → CQ) × List (Fin L.nb → Site L → CQ) :=
  loopPairs.foldl
    (fun acc p =>
      let u := dir4 p.1
      let v := dir4 p.2
      let yuv := gmulF L false false (sliceDir L x u) (rollAxis L (-1) u (sliceDir L x v))
      let yvu := gmulF L false false (sliceDir L x v) (rollAxis L (-1) v (sliceDir L x u))
      let plaq := traceF L (gmulF L false true yuv yvu)
      (acc.1 ++ [plaq], if needs_rect then acc.2 ++ rectPair L x u v else acc.2))
    ([], [])

/-- tf.reduce_sum of the real part over all axes but the batch axis. -/
def reduceRealSite (L : LatticeSU3) (p : Fin L.nb → Site L → CQ) :
    Fin L.nb → ℚ :=
  fun b => ∑ n : Site L, (p b n).re

/-- The running sum `psum += tf.reduce_sum(tf.math.real(p), ...)` over a
list of trace fields, starting from 0. -/
def sumRealList (L : LatticeSU3) (ps : List (Fin L.nb → Site L → CQ)) :
    Fin L.nb → ℚ :=
  ps.foldl (fun acc p => fun b => acc b + reduceRealSite L p b) (fun _ => 0)

/-- LatticeSU3._plaquettes: the plaquette sum per batch element, divided
by 6 * 3 * volume. -/
def _plaquettes (L : LatticeSU3) (x : Cfg L) : Fin L.nb → ℚ :=
  let ps := (_wilson_loops L x false).1
  fun b => sumRealList L ps b / (6 * 3 * (L.volume : ℚ))

/-- LatticeSU3.coeffs: the coefficient dictionary for the plaquette and
rectangle terms, in insertion order. -/
def coeffs (L : LatticeSU3) (beta : ℚ) : List (String × ℚ) :=
  [("plaq", beta * (1 - 8 * L.c1)), ("rect", beta * L.c1)]

/-- LatticeSU3.action: the Wilson gauge action per batch element. -/
def action (L : LatticeSU3) (x : Cfg L) (beta : ℚ) : Fin L.nb → ℚ :=
  let cs := coeffs L beta
  let pr := _wilson_loops L x (decide (L.c1 ≠ 0))
  let psum := sumRealList L pr.1
  let base : Fin L.nb → ℚ := fun b => (cs.lookup "plaq").getD 0 * psum b
  let withRect : Fin L.nb → ℚ :=
    if L.c1 ≠ 0 then
      fun b => base b + (cs.lookup "rect").getD 0 * sumRealList L pr.2 b
    else base
  fun b => withRect b * (-1 / 3)

/-- LatticeSU3.grad_action modulo the automatic differentiation engine:
the gradient g of the action with respect to x is produced by the tensor
framework (external to this repository) and is taken here as an oracle
argument; the method then returns projectTAH(g.mul(g, x, adjoint_b=True))
pointwise. -/
def grad_action (L : LatticeSU3) (gradOracle : Cfg L → ℚ → Cfg L)
    (x : Cfg L) (beta : ℚ) : Cfg L :=
  fun b u n => projectTAH (gmul false true (gradOracle x beta b u n) (x b u n))

/-- One call to a public operation of the lattice object, with its
arguments. -/
inductive LatOp (L : LatticeSU3) where
  | coeffsOp (beta : ℚ)
  | actionOp (x : Cfg L) (beta : ℚ)
  | gradActionOp (x : Cfg L) (beta : ℚ)
  | plaquettesOp (x : Cfg L)
  | wilsonLoopsOp (x : Cfg L) (needs_rect : Bool)
  | plaquetteOp (x : Cfg L) (u : Fin 4) (v : Fin 4)
  | randomOp

/-- The value returned by one operation call. -/
inductive LatResult (L : LatticeSU3) where
  | coeffsR (d : List (String × ℚ))
  | actionR (a : Fin L.nb → ℚ)
  | gradR (gr : Cfg L)
  | plaquettesR (p : Fin L.nb → ℚ)
  | loopsR (pr : List (Fin L.nb → Site L → CQ) × List (Fin L.nb → Site L → CQ))
  | plaquetteR (p : Fin L.nb → Site L → CQ)
  | randomR (x : Cfg L)

/-- State-passing semantics of the method bodies: each operation is run on
the lattice object L and returns its value together with the object state
after the call.  The method bodies assign no field of self, so the state
after each call is the state before it.  The automatic-differentiation
gradient (used by grad_action) and the random generator g.random (both
external to the sources) are passed as oracles. -/
def runOp (L : LatticeSU3) (gradOracle : Cfg L → ℚ → Cfg L) (rng : Cfg L) :
    LatOp L → LatResult L × LatticeSU3
  | .coeffsOp beta => (.coeffsR (coeffs L beta), L)
  | .actionOp x beta => (.actionR (action L x beta), L)
  | .gradActionOp x beta => (.gradR (grad_action L gradOracle x beta), L)
  | .plaquettesOp x => (.plaquettesR (_plaquettes L x), L)
  | .wilsonLoopsOp x nr => (.loopsR (_wilson_loops L x nr), L)
  | .plaquetteOp x u v => (.plaquetteR (_plaquette L x u v), L)
  | .randomOp => (.randomR rng, L)

/-- The set of direction pairs (u, v) with v < u among the 4 spacetime
dimensions: one pair per unordered pair of distinct directions. -/
def plaqPairsFinset : Finset (Fin 4 × Fin 4) :=
  Finset.univ.filter (fun p => p.2 < p.1)

/-- The total plaquette sum stated by the specification: the sum, over all
6 plaquette orientations and all lattice sites, of the real part of the
plaquette trace, per batch element. -/
def specPlaqSum (L : LatticeSU3) (x : Cfg L) : Fin L.nb → ℚ :=
  fun b => ∑ p ∈ plaqPairsFinset, ∑ n : Site L, (_plaquette L x p.1 p.2 b n).re

/-- The rectangle sum accumulated by the action: the sum over the 12
rectangle trace fields of _wilson_loops, per batch element. -/
def rectSumCode (L : LatticeSU3) (x : Cfg L) : Fin L.nb → ℚ :=
  sumRealList L (_wilson_loops L x true).2

theorem rollCoord_neg_one (n : ℕ) (i : Fin n) :
    rollCoord n (-1) i = finSucc i := by
  apply Fin.ext
  show ((((i.val : ℤ) - (-1)) % (n : ℤ)).toNat) = (i.val + 1) % n
  have h : ((i.val : ℤ) - (-1)) = ((i.val + 1 : ℕ) : ℤ) := by push_cast; ring
  rw [h, ← Int.natCast_mod, Int.toNat_natCast]

theorem rollSite_neg_one (L : LatticeSU3) (u : Fin 4) (n : Site L) :
    rollSite L (-1) u n = shiftSite L u n := by
  unfold rollSite shiftSite
  split_ifs <;> simp [rollCoord_neg_one]

theorem rollAxis_neg_one (L : LatticeSU3) (u : Fin 4) (f : SField L)
    (b : Fin L.nb) (n : Site L) :
    rollAxis L (-1) u f b n = f b (shiftSite L u n) := by
  unfold rollAxis
  rw [rollSite_neg_one]

theorem loopPairs_map {α : Type} (f : ℕ × ℕ → α) :
    loopPairs.map f = [f (1, 0), f (2, 0), f (2, 1), f (3, 0), f (3, 1), f (3, 2)] := rfl

theorem foldl_accum {α β : Type} (f : α → β) (g : α → List β) (nr : Bool)
    (l : List α) (a1 a2 : List β) :
    l.foldl (fun acc p => (acc.1 ++ [f p], if nr then acc.2 ++ g p else acc.2))
        (a1, a2) =
      (a1 ++ l.map f, if nr then a2 ++ l.flatMap g else a2) := by
  induction l generalizing a1 a2 with
  | nil => cases nr <;> simp
  | cons h t ih => cases nr <;> simp_all

theorem foldl_accum_nil {α β : Type} (f : α → β) (g : α → List β) (nr : Bool)
    (l : List α) :
    l.foldl (fun acc p => (acc.1 ++ [f p], if nr then acc.2 ++ g p else acc.2))
        ([], []) =
      (l.map f, if nr then l.flatMap g else []) := by
  rw [foldl_accum]
  cases nr <;> simp

theorem wilson_loops_eq (L : LatticeSU3) (x : Cfg L) (nr : Bool) :
    _wilson_loops L x nr =
      (loopPairs.map (fun p => _plaquette L x (dir4 p.1) (dir4 p.2)),
       if nr then loopPairs.flatMap (fun p => rectPair L x (dir4 p.1) (dir4 p.2))
       else []) := by
  unfold _wilson_loops
  exact foldl_accum_nil _ _ nr loopPairs

theorem sumRealList_six (L : LatticeSU3)
    (q1 q2 q3 q4 q5 q6 : Fin L.nb → Site L → CQ) (b : Fin L.nb) :
    sumRealList L [q1, q2, q3, q4, q5, q6] b =
      reduceRealSite L q1 b + reduceRealSite L q2 b + reduceRealSite L q3 b +
      reduceRealSite L q4 b + reduceRealSite L q5 b + reduceRealSite L q6 b := by
  simp [sumRealList, List.foldl]

theorem specPlaqSum_eq (L : LatticeSU3) (x : Cfg L) (b : Fin L.nb) :
    specPlaqSum L x b =
      reduceRealSite L (_plaquette L x (dir4 1) (dir4 0)) b +
      reduceRealSite L (_plaquette L x (dir4 2) (dir4 0)) b +
      reduceRealSite L (_plaquette L x (dir4 2) (dir4 1)) b +
      reduceRealSite L (_plaquette L x (dir4 3) (dir4 0)) b +
      reduceRealSite L (_plaquette L x (dir4 3) (dir4 1)) b +
      reduceRealSite L (_plaquette L x (dir4 3) (dir4 2)) b := by
  have h : plaqPairsFinset =
      {(dir4 1, dir4 0), (dir4 2, dir4 0), (dir4 2, dir4 1),
       (dir4 3, dir4 0), (dir4 3, dir4 1), (dir4 3, dir4 2)} := by decide
  unfold specPlaqSum reduceRealSite
  rw [h]
  rw [Finset.sum_insert (by decide), Finset.sum_insert (by decide),
      Finset.sum_insert (by decide), Finset.sum_insert (by decide),
      Finset.sum_insert (by decide), Finset.sum_singleton]
  ring

theorem coeffs_lookup_plaq (L : LatticeSU3) (beta : ℚ) :
    (coeffs L beta).lookup "plaq" = some (beta * (1 - 8 * L.c1)) := rfl

theorem coeffs_lookup_rect (L : LatticeSU3) (beta : ℚ) :
    (coeffs L beta).lookup "rect" = some (beta * L.c1) := rfl

theorem loopPairs_lit :
    loopPairs = [(1, 0), (2, 0), (2, 1), (3, 0), (3, 1), (3, 2)] := rfl

theorem psum_eq_spec (L : LatticeSU3) (x : Cfg L) (nr : Bool) (b : Fin L.nb) :
    sumRealList L (_wilson_loops L x nr).1 b = specPlaqSum L x b := by
  have h1 : (_wilson_loops L x nr).1 =
      loopPairs.map (fun p => _plaquette L x (dir4 p.1) (dir4 p.2)) := by
    rw [wilson_loops_eq]
  rw [h1, loopPairs_map, sumRealList_six, specPlaqSum_eq]

theorem rectPair_length (L : LatticeSU3) (x : Cfg L) (p : ℕ × ℕ) :
    (rectPair L x (dir4 p.1) (dir4 p.2)).length = 2 := rfl

theorem flatMap_len6 {α β : Type} (g : α → List β) (h2 : ∀ a, (g a).length = 2)
    (p1 p2 p3 p4 p5 p6 : α) :
    ([p1, p2, p3, p4, p5, p6].flatMap g).length = 12 := by
  simp [h2]

/-- The identity link configuration: every link is the 3 by 3 identity. -/
def idCfg (L : LatticeSU3) : Cfg L := fun _ _ _ => idMat

theorem plaquette_id (L : LatticeSU3) (u v : Fin 4) (b : Fin L.nb)
    (n : Site L) : _plaquette L (idCfg L) u v b n = ⟨3, 0⟩ := by
  show trace3 (gmul false true (gmul false false idMat idMat)
      (gmul false false idMat idMat)) = ⟨3, 0⟩
  simp [trace3, gmul, matMul, adjM, idMat, CQ.mul_def, CQ.add_def,
    CQ.conj_def, CQ.zero_def, CQ.one_def]
  norm_num

/-- A concrete single-site lattice with c1 = 0 used by witnesses. -/
abbrev Ltest : LatticeSU3 := mkLattice 1 (1, 1, 1, 1) 0

/-- A concrete single-site lattice with c1 = 1/2 used by witnesses. -/
abbrev Ltest2 : LatticeSU3 := mkLattice 1 (1, 1, 1, 1) (1 / 2)

/-- The batch index 0 of the witness lattice. -/
def b0 : Fin Ltest.nb := ⟨0, by decide⟩

/-- The origin site of the witness lattice. -/
def s0 : Site Ltest := (⟨0, by decide⟩, ⟨0, by decide⟩, ⟨0, by decide⟩, ⟨0, by decide⟩)

/-- The batch index 0 of the second witness lattice. -/
def b02 : Fin Ltest2.nb := ⟨0, by decide⟩

theorem specPlaqSum_id (L : LatticeSU3) (b : Fin L.nb) :
    specPlaqSum L (idCfg L) b = 18 * (Fintype.card (Site L) : ℚ) := by
  unfold specPlaqSum
  have h1 : ∀ p : Fin 4 × Fin 4, ∀ n : Site L,
      (_plaquette L (idCfg L) p.1 p.2 b n).re = 3 := by
    intro p n
    rw [plaquette_id]
  have h2 : ∀ p : Fin 4 × Fin 4,
      (∑ n : Site L, (_plaquette L (idCfg L) p.1 p.2 b n).re)
        = 3 * (Fintype.card (Site L) : ℚ) := by
    intro p
    rw [Finset.sum_congr rfl (fun n _ => h1 p n), Finset.sum_const,
      nsmul_eq_mul, Finset.card_univ]
    ring
  rw [Finset.sum_congr rfl (fun p _ => h2 p), Finset.sum_const]
  have hc : plaqPairsFinset.card = 6 := by decide
  rw [hc, nsmul_eq_mul]
  push_cast
  ring

theorem plaquettes_eq (L : LatticeSU3) (x : Cfg L) (b : Fin L.nb) :
    _plaquettes L x b = specPlaqSum L x b / (6 * 3 * (L.volume : ℚ)) := by
  show sumRealList L (_wilson_loops L x false).1 b / (6 * 3 * (L.volume : ℚ)) = _
  rw [psum_eq_spec]

/-- C2: _wilson_loops returns exactly 6 plaquette trace tensors, one per
unordered pair of distinct directions (u, v) with 0 <= v < u <= 3; when
needs_rect is true it additionally returns exactly 12 rectangle trace
tensors (two per direction pair), and when needs_rect is false the
returned rectangle list is empty. -/
theorem wilson_loops_spec (L : LatticeSU3) (x : Cfg L) (needs_rect : Bool) :
    ((_wilson_loops L x needs_rect).1).length = 6 ∧
    ((_wilson_loops L x needs_rect).2).length = (if needs_rect then 12 else 0) ∧
    (_wilson_loops L x needs_rect).1 =
      loopPairs.map (fun p => _plaquette L x (dir4 p.1) (dir4 p.2)) ∧
    (∀ u v : ℕ, (u, v) ∈ loopPairs ↔ v < u ∧ u ≤ 3) := by
  have h1 : (_wilson_loops L x needs_rect).1 =
      loopPairs.map (fun p => _plaquette L x (dir4 p.1) (dir4 p.2)) := by
    rw [wilson_loops_eq]
  refine ⟨?_, ?_, h1, ?_⟩
  · rw [h1, List.length_map]
    rfl
  · cases needs_rect with
    | false =>
      have h2 : (_wilson_loops L x false).2 = ([] : List (Fin L.nb → Site L → CQ)) := by
        rw [wilson_loops_eq]
        rfl
      rw [h2]
      rfl
    | true =>
      have h2 : (_wilson_loops L x true).2 =
          loopPairs.flatMap (fun p => rectPair L x (dir4 p.1) (dir4 p.2)) := by
        rw [wilson_loops_eq]
        rfl
      rw [h2, loopPairs_lit]
      exact flatMap_len6 _ (fun a => rectPair_length L x a) _ _ _ _ _ _
  · intro u v
    rw [loopPairs_lit]
    simp only [List.mem_cons, List.not_mem_nil, or_false, Prod.mk.injEq]
    omega

/-- C3: for every distinct pair of directions u, v, _plaquette(x, u, v) is
the trace of U_u(n) U_v(n + u-hat) (U_v(n) U_u(n + v-hat)) adjoint at each
site n, the shifted fields being rolls by -1 with periodic wrap-around. -/
theorem plaquette_spec (L : LatticeSU3) (x : Cfg L) (u v : Fin 4)
    (h : u ≠ v) (b : Fin L.nb) (n : Site L) :
    _plaquette L x u v b n =
      trace3 (matMul (matMul (x b u n) (x b v (shiftSite L u n)))
        (adjM (matMul (x b v n) (x b u (shiftSite L v n))))) := by
  unfold _plaquette gmulF traceF sliceDir gtrace gmul
  simp [rollAxis_neg_one]

theorem plaquette_spec_w :
    ((0 : Fin 4) ≠ (1 : Fin 4)) ∧
    _plaquette Ltest (idCfg Ltest) 0 1 b0 s0 =
      trace3 (matMul
        (matMul (idCfg Ltest b0 0 s0) (idCfg Ltest b0 1 (shiftSite Ltest 0 s0)))
        (adjM (matMul (idCfg Ltest b0 1 s0)
          (idCfg Ltest b0 0 (shiftSite Ltest 1 s0))))) :=
  ⟨by decide, plaquette_spec Ltest (idCfg Ltest) 0 1 (by decide) b0 s0⟩

/-- C4: coeffs(beta) is a dictionary whose plaq entry is
beta * (1 - 8 * c1) and whose rect entry is beta * c1; for the default
c1 = 0 the plaq entry is beta and the rect entry is 0. -/
theorem coeffs_spec (L : LatticeSU3) (beta : ℚ) :
    (coeffs L beta).lookup "plaq" = some (beta * (1 - 8 * L.c1)) ∧
    (coeffs L beta).lookup "rect" = some (beta * L.c1) ∧
    (L.c1 = 0 →
      (coeffs L beta).lookup "plaq" = some beta ∧
      (coeffs L beta).lookup "rect" = some 0) := by
  refine ⟨coeffs_lookup_plaq L beta, coeffs_lookup_rect L beta, fun h => ⟨?_, ?_⟩⟩
  · rw [coeffs_lookup_plaq, h]
    norm_num
  · rw [coeffs_lookup_rect, h]
    norm_num

theorem coeffs_spec_w :
    (coeffs Ltest 5).lookup "plaq" = some 5 ∧
    (coeffs Ltest 5).lookup "rect" = some 0 :=
  (coeffs_spec Ltest 5).2.2 rfl

/-- C8: constructing a lattice from a shape list fails with the assertion
error when the length is not 4 (before the remaining fields are computed),
and succeeds for every shape of exactly 4 integers. -/
theorem mkLatticeChecked_spec (nb : ℕ) (shape : List ℕ) (c1 : ℚ) :
    (shape.length = 4 →
      mkLatticeChecked nb shape c1 =
        .ok (mkLattice nb
          (shape.getD 0 0, shape.getD 1 0, shape.getD 2 0, shape.getD 3 0) c1)) ∧
    (shape.length ≠ 4 →
      mkLatticeChecked nb shape c1 = .error "AssertionError: len(shape) == 4") := by
  constructor <;> intro h <;> simp [mkLatticeChecked, h]

theorem mkLatticeChecked_spec_w :
    mkLatticeChecked 1 [2, 3, 4, 5] 0 = .ok (mkLattice 1 (2, 3, 4, 5) 0) ∧
    mkLatticeChecked 1 [2, 3] 0 = .error "AssertionError: len(shape) == 4" :=
  ⟨(mkLatticeChecked_spec 1 [2, 3, 4, 5] 0).1 (by decide),
   (mkLatticeChecked_spec 1 [2, 3] 0).2 (by decide)⟩

/-- C9: site_idxs is (nt, nx, nx, nx) (the extent nx is reused for the
y and z dimensions), nplaqs is nt * nx, and site_idxs agrees with the
lattice shape exactly when ny = nx and nz = nx. -/
theorem site_idxs_spec (nb nt nx ny nz : ℕ) (c1 : ℚ) :
    (mkLattice nb (nt, nx, ny, nz) c1).site_idxs = [nt, nx, nx, nx] ∧
    (mkLattice nb (nt, nx, ny, nz) c1).nplaqs = nt * nx ∧
    ((mkLattice nb (nt, nx, ny, nz) c1).site_idxs = [nt, nx, ny, nz] ↔
      ny = nx ∧ nz = nx) := by
  refine ⟨rfl, rfl, ?_⟩
  show [nt, nx, nx, nx] = [nt, nx, ny, nz] ↔ ny = nx ∧ nz = nx
  constructor
  · intro h
    simp only [List.cons.injEq, and_true] at h
    exact ⟨h.2.2.1.symm, h.2.2.2.symm⟩
  · intro h
    rw [h.1, h.2]

/-- C10: every public operation after construction is read-only on the
lattice object: run in state-passing form, each operation returns the
lattice state unchanged. -/
theorem runOp_frame (L : LatticeSU3) (go : Cfg L → ℚ → Cfg L) (rng : Cfg L)
    (op : LatOp L) : (runOp L go rng op).2 = L := by
  cases op <;> rfl

/-- C6: the constructed lattice stores tensor shape
[nb, 4, nt, nx, ny, nz, 3, 3], dim = 4, volume = nt * nx * ny * nz,
nsites = volume, nlinks = 4 * nsites, and no operation changes these. -/
theorem mkLattice_fields (nb nt nx ny nz : ℕ) (c1 : ℚ) :
    (mkLattice nb (nt, nx, ny, nz) c1)._shape = [nb, 4, nt, nx, ny, nz, 3, 3] ∧
    (mkLattice nb (nt, nx, ny, nz) c1).dim = 4 ∧
    (mkLattice nb (nt, nx, ny, nz) c1).volume = nt * nx * ny * nz ∧
    (mkLattice nb (nt, nx, ny, nz) c1).nsites =
      (mkLattice nb (nt, nx, ny, nz) c1).volume ∧
    (mkLattice nb (nt, nx, ny, nz) c1).nlinks =
      4 * (mkLattice nb (nt, nx, ny, nz) c1).nsites ∧
    (∀ (go : Cfg (mkLattice nb (nt, nx, ny, nz) c1) → ℚ →
          Cfg (mkLattice nb (nt, nx, ny, nz) c1))
        (rng : Cfg (mkLattice nb (nt, nx, ny, nz) c1))
        (op : LatOp (mkLattice nb (nt, nx, ny, nz) c1)),
      (runOp (mkLattice nb (nt, nx, ny, nz) c1) go rng op).2 =
        mkLattice nb (nt, nx, ny, nz) c1) := by
  refine ⟨rfl, rfl, rfl, ?_, ?_, ?_⟩
  · show (cumprod [nt, nx, ny, nz]).getLastD 0 = nt * nx * ny * nz
    simp [cumprod, List.foldl]
  · show (cumprod [nt, nx, ny, nz]).getLastD 0 * 4 =
      4 * (cumprod [nt, nx, ny, nz]).getLastD 0
    ring
  · intro go rng op
    cases op <;> rfl

/-- C1: for a lattice with c1 = 0, action(x, beta) is -(1/3) * beta times
the sum over all 6 plaquette orientations, all sites and each batch
element of the real part of the plaquette trace; for c1 different from 0
the action additionally includes the rectangle sum multiplied by
beta * c1 (the plaquette sum then carrying the coefficient
beta * (1 - 8 * c1)), the whole multiplied by -1/3. -/
theorem action_spec (L : LatticeSU3) (x : Cfg L) (beta : ℚ) (b : Fin L.nb) :
    (L.c1 = 0 → action L x beta b = -(1 / 3) * (beta * specPlaqSum L x b)) ∧
    (L.c1 ≠ 0 → action L x beta b =
      -(1 / 3) * (beta * (1 - 8 * L.c1) * specPlaqSum L x b +
        beta * L.c1 * rectSumCode L x b)) := by
  constructor
  · intro h
    have hne : ¬ L.c1 ≠ 0 := not_not_intro h
    have hd : decide (L.c1 ≠ 0) = false := by simp [h]
    have ha : action L x beta b =
        ((coeffs L beta).lookup "plaq").getD 0 *
          sumRealList L (_wilson_loops L x (decide (L.c1 ≠ 0))).1 b * (-1 / 3) := by
      unfold action
      rw [if_neg hne]
    rw [ha, hd, psum_eq_spec, coeffs_lookup_plaq]
    simp only [Option.getD_some]
    rw [h]
    ring
  · intro h
    have hd : decide (L.c1 ≠ 0) = true := by simp [h]
    have ha : action L x beta b =
        (((coeffs L beta).lookup "plaq").getD 0 *
          sumRealList L (_wilson_loops L x (decide (L.c1 ≠ 0))).1 b +
         ((coeffs L beta).lookup "rect").getD 0 *
          sumRealList L (_wilson_loops L x (decide (L.c1 ≠ 0))).2 b) * (-1 / 3) := by
      unfold action
      rw [if_pos h]
    rw [ha, hd, psum_eq_spec, coeffs_lookup_plaq, coeffs_lookup_rect]
    simp only [Option.getD_some]
    unfold rectSumCode
    ring

theorem action_spec_w :
    action Ltest (idCfg Ltest) 2 b0 =
      -(1 / 3) * (2 * specPlaqSum Ltest (idCfg Ltest) b0) ∧
    action Ltest2 (idCfg Ltest2) 2 b02 =
      -(1 / 3) * (2 * (1 - 8 * Ltest2.c1) * specPlaqSum Ltest2 (idCfg Ltest2) b02 +
        2 * Ltest2.c1 * rectSumCode Ltest2 (idCfg Ltest2) b02) :=
  ⟨(action_spec Ltest (idCfg Ltest) 2 b0).1 rfl,
   (action_spec Ltest2 (idCfg Ltest2) 2 b02).2
     (by show (1 / 2 : ℚ) ≠ 0; norm_num)⟩

/-- C7: _plaquettes returns, per batch element, the sum over all 6
plaquette orientations and all sites of the real part of the plaquette
trace, divided by 6 * 3 * volume; on the all-identity configuration it
returns 1 for every batch element. -/
theorem plaquettes_spec :
    (∀ (L : LatticeSU3) (x : Cfg L) (b : Fin L.nb),
      _plaquettes L x b = specPlaqSum L x b / (6 * 3 * (L.volume : ℚ))) ∧
    (∀ (nb nt nx ny nz : ℕ) (c1 : ℚ)
        (b : Fin (mkLattice nb (nt, nx, ny, nz) c1).nb),
      0 < nt → 0 < nx → 0 < ny → 0 < nz →
      _plaquettes (mkLattice nb (nt, nx, ny, nz) c1)
        (idCfg (mkLattice nb (nt, nx, ny, nz) c1)) b = 1) := by
  constructor
  · exact plaquettes_eq
  · intro nb nt nx ny nz c1 b h1 h2 h3 h4
    rw [plaquettes_eq, specPlaqSum_id]
    have hcard : Fintype.card (Site (mkLattice nb (nt, nx, ny, nz) c1))
        = nt * nx * ny * nz := by
      show Fintype.card (Fin nt × Fin nx × Fin ny × Fin nz) = nt * nx * ny * nz
      simp [Fintype.card_prod]
      ring
    have hvol : (mkLattice nb (nt, nx, ny, nz) c1).volume = nt * nx * ny * nz := rfl
    rw [hcard, hvol]
    have hpos : 0 < nt * nx * ny * nz := by positivity
    have hne : ((nt * nx * ny * nz : ℕ) : ℚ) ≠ 0 :=
      Nat.cast_ne_zero.mpr (by omega)
    field_simp
    norm_num

theorem plaquettes_spec_w :
    _plaquettes Ltest (idCfg Ltest) b0 = 1 :=
  plaquettes_spec.2 1 1 1 1 1 0 b0 (by decide) (by decide) (by decide) (by decide)

